import Mathlib

/-!
Verification of the stonxx incremental ingestion scheduler.

Shallow embedding of the ingestion core of the repository:
`database.py` (Bar Store and Run Ledger), `ingest_catchup.py`
(window calculator, provider client, chunked fetch orchestrator)
and `app.py` (realtime scheduler loop and on-demand launcher).

Modelling conventions:
- wall-clock instants are unix seconds as `Int`; every function that reads
  the clock in Python takes `now : Int` as an explicit argument;
- OHLC price fields are carried opaquely as `Int` (no arithmetic is ever
  performed on them by the embedded code, only storage and comparison);
- the SQLite tables are association lists; `INSERT OR IGNORE` under the
  UNIQUE(symbol, timeframe, timestamp) constraint becomes a guarded append;
- network responses and per-request outcomes are supplied by oracles, since
  the network is outside the program.
-/

/-- Bar resolution. `parse_tf` in ingest_catchup.py admits exactly the codes
1Min, 5Min and 30Min, so the timeframe is a closed enumeration. -/
inductive Timeframe
| m1
| m5
| m30
deriving DecidableEq, Repr

/-- One OHLCV observation, the row shape of the `bars` table created by
`init_database` in database.py. -/
structure Bar where
  symbol : String
  timeframe : Timeframe
  timestamp : Int
  opn : Int
  high : Int
  low : Int
  close : Int
  volume : Int
deriving DecidableEq, Repr

/-- One row of the `ingest_runs` table created by `init_database` in
database.py. -/
structure IngestRun where
  id : Nat
  timeframe : Timeframe
  mode : String
  status : String
  startedAt : Int
  endedAt : Option Int
  windowStart : Int
  windowEnd : Int
  insertedRows : Nat
  pid : Nat
deriving DecidableEq, Repr

/-- The UNIQUE(symbol, timeframe, timestamp) key comparison of the `bars`
table. -/
def barKeyMatches (a b : Bar) : Bool :=
  a.symbol == b.symbol && a.timeframe == b.timeframe && a.timestamp == b.timestamp

/-- Whether the store already holds a row with the key of `b`. -/
def hasKey (db : List Bar) (b : Bar) : Bool :=
  db.any (fun x => barKeyMatches x b)

/-- One `INSERT OR IGNORE` statement against the `bars` table: a duplicate
key is dropped (change count 0), a fresh key is appended (change count 1). -/
def insertOrIgnore (db : List Bar) (b : Bar) : List Bar × Nat :=
  if hasKey db b then (db, 0) else (db ++ [b], 1)

/-- The effect of `cursor.executemany` with `INSERT OR IGNORE` over a batch:
rows are applied in order and the change counts are summed, which is what
`cursor.rowcount` reports after the statement. -/
def applyInserts (db : List Bar) (bars : List Bar) : List Bar × Nat :=
  bars.foldl (fun acc b =>
    let r := insertOrIgnore acc.1 b
    (r.1, acc.2 + r.2)) (db, 0)

/-- `insert_bars_batch` from database.py on its success path: executemany,
commit, return `cursor.rowcount`. -/
def insert_bars_batch (db : List Bar) (bars : List Bar) : List Bar × Nat :=
  applyInserts db bars

/-- A SQLite connection as seen by `insert_bars_batch`: the committed store
plus the working copy holding not yet committed statements. -/
structure Conn where
  committed : List Bar
  pending : List Bar

/-- Opening a connection: the working copy starts at the committed store. -/
def connOpen (db : List Bar) : Conn :=
  ⟨db, db⟩

/-- `conn.commit()`: the working copy becomes the committed store. -/
def connCommit (c : Conn) : Conn :=
  ⟨c.pending, c.pending⟩

/-- `conn.rollback()`: the working copy is discarded. -/
def connRollback (c : Conn) : Conn :=
  ⟨c.committed, c.committed⟩

/-- `insert_bars_batch` from database.py including its error path.
`err = none` is the success path: executemany the whole batch, commit,
return the row count. `err = some k` means the underlying driver raises
after applying the first `k` statements of the batch; the except branch
rolls the connection back and the function returns 0 instead of raising. -/
def insert_bars_batch_tx (db : List Bar) (bars : List Bar) (err : Option Nat) :
    List Bar × Nat :=
  let c := connOpen db
  match err with
  | none =>
    let r := applyInserts c.pending bars
    ((connCommit ⟨c.committed, r.1⟩).committed, r.2)
  | some k =>
    let r := applyInserts c.pending (bars.take k)
    ((connRollback ⟨c.committed, r.1⟩).committed, 0)

/-- Rows of the store carrying a given key, used to state uniqueness and
value retention. -/
def rowsForKey (db : List Bar) (b : Bar) : List Bar :=
  db.filter (fun x => barKeyMatches x b)

-- ---------------------------------------------------------------------------
-- Run Ledger (ingest_runs table)
-- ---------------------------------------------------------------------------

/-- SQLite AUTOINCREMENT id for the next `ingest_runs` row: strictly larger
than every id ever used. -/
def nextRunId (ledger : List IngestRun) : Nat :=
  (ledger.map (fun r => r.id)).foldr max 0 + 1

/-- Row lookup by id, the effect of a `WHERE id = ?` clause on the unique
id column. -/
def findRun (ledger : List IngestRun) (rid : Nat) : Option IngestRun :=
  ledger.find? (fun r => r.id == rid)

/-- `create_ingest_run` from database.py: append a fresh row in status
running with zero inserted rows and no end time, returning its id. -/
def create_ingest_run (ledger : List IngestRun) (tf : Timeframe) (mode : String)
    (windowStart windowEnd : Int) (pid : Nat) (now : Int) :
    List IngestRun × Nat :=
  let rid := nextRunId ledger
  (ledger ++ [{ id := rid, timeframe := tf, mode := mode, status := "running",
                startedAt := now, endedAt := none, windowStart := windowStart,
                windowEnd := windowEnd, insertedRows := 0, pid := pid }], rid)

/-- `update_ingest_run` from database.py. A truthy increment adds to
`inserted_rows` of the row with the given id (an increment of 0 is falsy in
Python and performs no update). When a status is passed, it is written, and
`ended_at` is set to the current time exactly when `ended_at_now` holds and
the status is terminal (finished or error). -/
def update_ingest_run (ledger : List IngestRun) (rid : Nat)
    (status : Option String) (insertedRowsIncrement : Option Nat)
    (endedAtNow : Bool) (now : Int) : List IngestRun :=
  let l1 :=
    match insertedRowsIncrement with
    | some n =>
      if n = 0 then ledger
      else ledger.map (fun r =>
        if r.id == rid then { r with insertedRows := r.insertedRows + n } else r)
    | none => ledger
  match status with
  | some s =>
    if endedAtNow && (s == "finished" || s == "error") then
      l1.map (fun r => if r.id == rid then { r with status := s, endedAt := some now } else r)
    else
      l1.map (fun r => if r.id == rid then { r with status := s } else r)
  | none => l1

/-- `has_running_ingest` from database.py: COUNT(*) of rows in status
running, optionally filtered by timeframe and mode, compared with 0. -/
def has_running_ingest (ledger : List IngestRun) (tf : Option Timeframe)
    (mode : Option String) : Bool :=
  (ledger.filter (fun r =>
    r.status == "running"
      && (match tf with | some t => r.timeframe == t | none => true)
      && (match mode with | some m => r.mode == m | none => true))).length > 0

-- ---------------------------------------------------------------------------
-- C4 / C10: Bar Store insert semantics
-- ---------------------------------------------------------------------------

lemma barKeyMatches_symm (a b : Bar) (h : barKeyMatches a b = true) :
    barKeyMatches b a = true := by
  simp only [barKeyMatches, Bool.and_eq_true, beq_iff_eq] at h ⊢
  exact ⟨⟨h.1.1.symm, h.1.2.symm⟩, h.2.symm⟩

lemma hasKey_of_matches {db : List Bar} {orig : Bar} (b : Bar)
    (horig : orig ∈ db) (h : barKeyMatches orig b = true) :
    hasKey db b = true := by
  simp only [hasKey, List.any_eq_true]
  exact ⟨orig, horig, h⟩

/-- C4. Inserting a batch consisting of one row whose key is already present
(with arbitrary OHLCV values) and one genuinely new row reports an inserted
count of 1; the store keeps exactly one row for the duplicated key, with the
originally stored values, and the only change is the appended new row. -/
theorem insert_batch_idempotent_dup_counts_new
    (db : List Bar) (orig dup new : Bar)
    (horig : rowsForKey db orig = [orig])
    (hdup : barKeyMatches dup orig = true)
    (hnew : hasKey db new = false) :
    (insert_bars_batch db [dup, new]).2 = 1
      ∧ rowsForKey (insert_bars_batch db [dup, new]).1 orig = [orig]
      ∧ (insert_bars_batch db [dup, new]).1 = db ++ [new] := by
  have horigmem : orig ∈ db := by
    have : orig ∈ rowsForKey db orig := by
      rw [horig]; exact List.mem_singleton.mpr rfl
    exact List.mem_of_mem_filter this
  have hdup' : hasKey db dup = true :=
    hasKey_of_matches dup horigmem (barKeyMatches_symm dup orig hdup)
  have hstep : insert_bars_batch db [dup, new] = (db ++ [new], 1) := by
    simp only [insert_bars_batch, applyInserts, List.foldl, insertOrIgnore, hdup']
    have hnew' : hasKey db new = false := hnew
    simp [hnew']
  refine ⟨by rw [hstep], ?_, by rw [hstep]⟩
  rw [hstep]
  have hnewmatch : barKeyMatches new orig = false := by
    by_contra hc
    have hb : barKeyMatches new orig = true := by
      cases h : barKeyMatches new orig with
      | true => rfl
      | false => exact absurd h hc
    have : hasKey db new = true :=
      hasKey_of_matches new horigmem (barKeyMatches_symm new orig hb)
    rw [hnew] at this
    exact Bool.false_ne_true this
  simp only [rowsForKey, List.filter_append] at horig ⊢
  rw [horig]
  simp [hnewmatch]

/-- C4 witness: a concrete store holding one bar for key (A, 1Min, 100); a
batch of one conflicting row with different OHLCV values and one new row
inserts exactly the new row and reports count 1. -/
theorem insert_batch_idempotent_dup_counts_new_witness :
    (insert_bars_batch [⟨"A", Timeframe.m1, 100, 1, 2, 3, 4, 5⟩]
        [⟨"A", Timeframe.m1, 100, 9, 9, 9, 9, 9⟩, ⟨"B", Timeframe.m1, 100, 1, 1, 1, 1, 1⟩]).2 = 1
      ∧ rowsForKey (insert_bars_batch [⟨"A", Timeframe.m1, 100, 1, 2, 3, 4, 5⟩]
          [⟨"A", Timeframe.m1, 100, 9, 9, 9, 9, 9⟩, ⟨"B", Timeframe.m1, 100, 1, 1, 1, 1, 1⟩]).1
          ⟨"A", Timeframe.m1, 100, 1, 2, 3, 4, 5⟩ = [⟨"A", Timeframe.m1, 100, 1, 2, 3, 4, 5⟩]
      ∧ (insert_bars_batch [⟨"A", Timeframe.m1, 100, 1, 2, 3, 4, 5⟩]
          [⟨"A", Timeframe.m1, 100, 9, 9, 9, 9, 9⟩, ⟨"B", Timeframe.m1, 100, 1, 1, 1, 1, 1⟩]).1
          = [⟨"A", Timeframe.m1, 100, 1, 2, 3, 4, 5⟩] ++ [⟨"B", Timeframe.m1, 100, 1, 1, 1, 1, 1⟩] := by
  exact insert_batch_idempotent_dup_counts_new
    [⟨"A", Timeframe.m1, 100, 1, 2, 3, 4, 5⟩]
    ⟨"A", Timeframe.m1, 100, 1, 2, 3, 4, 5⟩
    ⟨"A", Timeframe.m1, 100, 9, 9, 9, 9, 9⟩
    ⟨"B", Timeframe.m1, 100, 1, 1, 1, 1, 1⟩
    (by decide) (by decide) (by decide)

-- ---------------------------------------------------------------------------
-- Catch-up Window Calculator (ingest_catchup.py)
-- ---------------------------------------------------------------------------

/-- Overlap buffers of `compute_catchup_window`, in seconds: 15 minutes for
1Min, 1 hour for 5Min, 6 hours for 30Min. -/
def buffers : Timeframe → Int
| Timeframe.m1 => 900
| Timeframe.m5 => 3600
| Timeframe.m30 => 21600

/-- Fallback horizons of `compute_catchup_window`, in seconds: 3 days for
1Min, 14 days for 5Min, 56 days for 30Min. -/
def fallbacks : Timeframe → Int
| Timeframe.m1 => 3 * 86400
| Timeframe.m5 => 14 * 86400
| Timeframe.m30 => 56 * 86400

/-- The per-symbol `MAX(timestamp)` of the SQL query in
`get_latest_by_symbol`: the latest stored timestamp of a symbol for a
timeframe, or none when the symbol has no bar for it. -/
def latestTs (db : List Bar) (tf : Timeframe) (s : String) : Option Int :=
  (db.filter (fun b => b.symbol == s && b.timeframe == tf)).foldr
    (fun b acc =>
      match acc with
      | none => some b.timestamp
      | some m => some (max b.timestamp m)) none

/-- `get_latest_by_symbol` from ingest_catchup.py: the dict mapping each
requested symbol that has data for the timeframe to its latest stored
timestamp (dict keys are unique, hence the dedup). -/
def get_latest_by_symbol (db : List Bar) (tf : Timeframe) (symbols : List String) :
    List (String × Int) :=
  symbols.dedup.filterMap (fun s => (latestTs db tf s).map (fun t => (s, t)))

/-- Python `min(vals) if vals else dflt` over the dict values. -/
def minValues (vals : List Int) (dflt : Int) : Int :=
  match vals with
  | [] => dflt
  | x :: xs => xs.foldl min x

/-- `compute_catchup_window` from ingest_catchup.py. When some requested
symbol lacks data for the timeframe (the dict is shorter than the symbol
list), the start falls back to a fixed horizon before now; otherwise the
start is the minimum latest timestamp, clamped below by 0, minus the overlap
buffer. The start is finally clamped to at most one second before now, and
the end is now. -/
def compute_catchup_window (db : List Bar) (now : Int) (tf : Timeframe)
    (symbols : List String) : Int × Int :=
  let latest := get_latest_by_symbol db tf symbols
  let start :=
    if latest.length < symbols.length then now - fallbacks tf
    else max 0 (minValues (latest.map Prod.snd) (now - buffers tf)) - buffers tf
  (min start (now - 1), now)

lemma foldl_min_le_init (xs : List Int) (x : Int) : xs.foldl min x ≤ x := by
  induction xs generalizing x with
  | nil => exact le_refl x
  | cons a xs ih =>
    exact le_trans (ih (min x a)) (min_le_left x a)

lemma foldl_min_le_mem (xs : List Int) (x y : Int) (h : y ∈ xs) :
    xs.foldl min x ≤ y := by
  induction xs generalizing x with
  | nil => cases h
  | cons a xs ih =>
    rcases List.mem_cons.mp h with rfl | hy
    · exact le_trans (foldl_min_le_init xs (min x y)) (min_le_right x y)
    · exact ih (min x a) hy

lemma foldl_min_mem (xs : List Int) (x : Int) :
    xs.foldl min x = x ∨ xs.foldl min x ∈ xs := by
  induction xs generalizing x with
  | nil => left; rfl
  | cons a xs ih =>
    have hdef : List.foldl min x (a :: xs) = List.foldl min (min x a) xs := rfl
    rw [hdef]
    rcases ih (min x a) with h | h
    · rcases le_total x a with hxa | hax
      · left; rw [h, min_eq_left hxa]
      · right; rw [h, min_eq_right hax]; exact List.mem_cons_self a xs
    · right; exact List.mem_cons_of_mem a h

lemma minValues_spec (vals : List Int) (d : Int) (h : vals ≠ []) :
    minValues vals d ∈ vals ∧ ∀ y ∈ vals, minValues vals d ≤ y := by
  cases vals with
  | nil => exact absurd rfl h
  | cons x xs =>
    refine ⟨?_, ?_⟩
    · show xs.foldl min x ∈ x :: xs
      rcases foldl_min_mem xs x with h | h
      · rw [h]; exact List.mem_cons_self x xs
      · exact List.mem_cons_of_mem x h
    · intro y hy
      show xs.foldl min x ≤ y
      rcases List.mem_cons.mp hy with rfl | hy
      · exact foldl_min_le_init xs y
      · exact foldl_min_le_mem xs x y hy

lemma mem_get_latest_iff (db : List Bar) (tf : Timeframe) (symbols : List String)
    (s : String) (t : Int) :
    (s, t) ∈ get_latest_by_symbol db tf symbols
      ↔ s ∈ symbols ∧ latestTs db tf s = some t := by
  simp only [get_latest_by_symbol, List.mem_filterMap, List.mem_dedup]
  constructor
  · rintro ⟨a, ha, hf⟩
    rcases Option.map_eq_some'.mp hf with ⟨u, hu, heq⟩
    have has : a = s := congrArg Prod.fst heq
    have hut : u = t := congrArg Prod.snd heq
    subst has; subst hut
    exact ⟨ha, hu⟩
  · rintro ⟨hs, ht⟩
    exact ⟨s, hs, by rw [ht]; rfl⟩

lemma length_filterMap_of_all_some {α β : Type} (f : α → Option β) (l : List α)
    (h : ∀ a ∈ l, (f a).isSome) : (l.filterMap f).length = l.length := by
  induction l with
  | nil => rfl
  | cons a l ih =>
    rcases Option.isSome_iff_exists.mp (h a (List.mem_cons_self a l)) with ⟨b, hb⟩
    simp only [List.filterMap_cons, hb, List.length_cons]
    rw [ih (fun x hx => h x (List.mem_cons_of_mem a hx))]

lemma length_filterMap_lt {α β : Type} (f : α → Option β) (l : List α) (a : α)
    (ha : a ∈ l) (hfa : f a = none) : (l.filterMap f).length < l.length := by
  induction l with
  | nil => cases ha
  | cons b l ih =>
    rcases List.mem_cons.mp ha with rfl | ha'
    · simp only [List.filterMap_cons, hfa]
      exact Nat.lt_succ_of_le (List.length_filterMap_le f l)
    · simp only [List.filterMap_cons]
      cases hfb : f b with
      | none => exact Nat.lt_succ_of_lt (ih ha')
      | some c => simpa using Nat.succ_lt_succ (ih ha')

lemma get_latest_length_lt (db : List Bar) (tf : Timeframe) (symbols : List String)
    (s : String) (hs : s ∈ symbols) (hnone : latestTs db tf s = none) :
    (get_latest_by_symbol db tf symbols).length < symbols.length := by
  have h1 : (get_latest_by_symbol db tf symbols).length < symbols.dedup.length :=
    length_filterMap_lt _ _ s (List.mem_dedup.mpr hs) (by rw [hnone]; rfl)
  exact lt_of_lt_of_le h1 symbols.dedup_sublist.length_le

lemma get_latest_length_eq (db : List Bar) (tf : Timeframe) (symbols : List String)
    (hnd : symbols.Nodup) (hall : ∀ s ∈ symbols, (latestTs db tf s).isSome) :
    (get_latest_by_symbol db tf symbols).length = symbols.length := by
  unfold get_latest_by_symbol
  rw [List.dedup_eq_self.mpr hnd]
  exact length_filterMap_of_all_some _ _ (fun a ha => by
    rcases Option.isSome_iff_exists.mp (hall a ha) with ⟨t, ht⟩
    rw [ht]; rfl)

lemma buffers_pos (tf : Timeframe) : 0 < buffers tf := by
  cases tf <;> simp [buffers]

lemma fallbacks_pos (tf : Timeframe) : 0 < fallbacks tf := by
  cases tf <;> simp [fallbacks]

/-- C3. When at least one symbol of a non-empty universe has no stored bar
for the timeframe, the window start is the fixed fallback horizon before
now — 3, 14 or 56 days of seconds depending on resolution — not an
incremental window. -/
theorem compute_catchup_window_fallback
    (db : List Bar) (now : Int) (tf : Timeframe) (symbols : List String)
    (h : ∃ s ∈ symbols, latestTs db tf s = none) :
    (compute_catchup_window db now tf symbols).1 = now - fallbacks tf
      ∧ fallbacks Timeframe.m1 = 3 * 86400
      ∧ fallbacks Timeframe.m5 = 14 * 86400
      ∧ fallbacks Timeframe.m30 = 56 * 86400 := by
  rcases h with ⟨s, hs, hnone⟩
  have hlt := get_latest_length_lt db tf symbols s hs hnone
  refine ⟨?_, rfl, rfl, rfl⟩
  simp only [compute_catchup_window, if_pos hlt]
  have h1 : (1 : Int) ≤ fallbacks tf := by
    have := fallbacks_pos tf; omega
  exact min_eq_left (by omega)

/-- C3 witness: an empty store, universe ATEST at 1Min; the window starts
exactly 3 days before now. -/
theorem compute_catchup_window_fallback_witness :
    (compute_catchup_window [] 1000000 Timeframe.m1 ["ATEST"]).1
        = 1000000 - fallbacks Timeframe.m1
      ∧ fallbacks Timeframe.m1 = 3 * 86400
      ∧ fallbacks Timeframe.m5 = 14 * 86400
      ∧ fallbacks Timeframe.m30 = 56 * 86400 :=
  compute_catchup_window_fallback [] 1000000 Timeframe.m1 ["ATEST"]
    ⟨"ATEST", List.mem_singleton.mpr rfl, rfl⟩

/-- C9. For a non-empty universe the returned pair satisfies: the end is the
current wall-clock time, the start is strictly before the end, and the start
is clamped to at most one second before now. -/
theorem compute_catchup_window_bounds
    (db : List Bar) (now : Int) (tf : Timeframe) (symbols : List String)
    (hne : symbols ≠ []) :
    (compute_catchup_window db now tf symbols).2 = now
      ∧ (compute_catchup_window db now tf symbols).1
          < (compute_catchup_window db now tf symbols).2
      ∧ (compute_catchup_window db now tf symbols).1 ≤ now - 1 := by
  have hfst : (compute_catchup_window db now tf symbols).1 ≤ now - 1 := by
    simp only [compute_catchup_window]
    exact min_le_right _ _
  exact ⟨rfl, by simp only [compute_catchup_window]; omega, hfst⟩

/-- C9 witness: a concrete one-symbol universe over an empty store. -/
theorem compute_catchup_window_bounds_witness :
    (compute_catchup_window [] 5000 Timeframe.m5 ["B"]).2 = 5000
      ∧ (compute_catchup_window [] 5000 Timeframe.m5 ["B"]).1
          < (compute_catchup_window [] 5000 Timeframe.m5 ["B"]).2
      ∧ (compute_catchup_window [] 5000 Timeframe.m5 ["B"]).1 ≤ 5000 - 1 :=
  compute_catchup_window_bounds [] 5000 Timeframe.m5 ["B"] (by simp)

/-- C2 counterexample: with universe A whose only 1Min bar is stored at
timestamp 1000000 while the clock reads 100, the computed start is the
clamp now − 1 = 99, not the minimum latest timestamp minus the 900 second
buffer. -/
theorem compute_catchup_window_not_always_min_minus_buffer :
    (compute_catchup_window [⟨"A", Timeframe.m1, 1000000, 1, 1, 1, 1, 1⟩]
        100 Timeframe.m1 ["A"]).1 = 99
      ∧ latestTs [⟨"A", Timeframe.m1, 1000000, 1, 1, 1, 1, 1⟩] Timeframe.m1 "A"
          = some 1000000
      ∧ (99 : Int) ≠ 1000000 - 900 := by
  refine ⟨by decide, by decide, by decide⟩

/-- C2 (amended). For a non-empty duplicate-free universe in which every
symbol has a stored bar for the timeframe, and whose stored latest
timestamps are non-negative and do not run ahead of the clock by more than
the overlap buffer, the computed start equals the minimum latest stored
timestamp across the universe minus the timeframe overlap buffer, and in
particular is at most every symbol latest stored timestamp. -/
theorem compute_catchup_window_incremental
    (db : List Bar) (now : Int) (tf : Timeframe) (symbols : List String)
    (hne : symbols ≠ []) (hnd : symbols.Nodup)
    (hall : ∀ s ∈ symbols, (latestTs db tf s).isSome)
    (hbound : ∀ s ∈ symbols, ∀ t, latestTs db tf s = some t →
      0 ≤ t ∧ t ≤ now - 1 + buffers tf) :
    ∃ m, (∃ s ∈ symbols, latestTs db tf s = some m)
      ∧ (∀ s ∈ symbols, ∀ t, latestTs db tf s = some t → m ≤ t)
      ∧ (compute_catchup_window db now tf symbols).1 = m - buffers tf
      ∧ (∀ s ∈ symbols, ∀ t, latestTs db tf s = some t →
          (compute_catchup_window db now tf symbols).1 ≤ t) := by
  have hlen := get_latest_length_eq db tf symbols hnd hall
  have hnotlt : ¬ (get_latest_by_symbol db tf symbols).length < symbols.length := by
    rw [hlen]; exact lt_irrefl _
  have hvalsne : (get_latest_by_symbol db tf symbols).map Prod.snd ≠ [] := by
    intro hcon
    have : (get_latest_by_symbol db tf symbols).length = 0 := by
      have := congrArg List.length hcon
      simpa using this
    rw [hlen] at this
    exact hne (List.length_eq_zero.mp this)
  obtain ⟨hmem, hlb⟩ := minValues_spec
    ((get_latest_by_symbol db tf symbols).map Prod.snd) (now - buffers tf) hvalsne
  set m := minValues ((get_latest_by_symbol db tf symbols).map Prod.snd)
    (now - buffers tf) with hm
  rcases List.mem_map.mp hmem with ⟨p, hp, hpm⟩
  have hpms : (p.1, m) ∈ get_latest_by_symbol db tf symbols := by
    rw [← hpm]
    simpa using hp
  rcases (mem_get_latest_iff db tf symbols p.1 m).mp hpms with ⟨hps, hpl⟩
  have hlow : ∀ s ∈ symbols, ∀ t, latestTs db tf s = some t → m ≤ t := by
    intro s hs t ht
    have : (s, t) ∈ get_latest_by_symbol db tf symbols :=
      (mem_get_latest_iff db tf symbols s t).mpr ⟨hs, ht⟩
    exact hlb t (List.mem_map.mpr ⟨(s, t), this, rfl⟩)
  have h0m : 0 ≤ m := ((hbound p.1 hps m hpl).1)
  have hmbound : m - buffers tf ≤ now - 1 := by
    have := (hbound p.1 hps m hpl).2
    omega
  have hstart : (compute_catchup_window db now tf symbols).1 = m - buffers tf := by
    simp only [compute_catchup_window, if_neg hnotlt, ← hm]
    rw [max_eq_right h0m]
    exact min_eq_left hmbound
  refine ⟨m, ⟨p.1, hps, hpl⟩, hlow, hstart, ?_⟩
  intro s hs t ht
  rw [hstart]
  have hb := buffers_pos tf
  have := hlow s hs t ht
  omega

/-- C2 (amended) witness: universe A, B with latest 1Min timestamps 1000 and
900 and clock 2000; the computed start is 900 − 900 = 0, at most both
latest timestamps. -/
theorem compute_catchup_window_incremental_witness :
    ∃ m, (∃ s ∈ ["A", "B"],
        latestTs [⟨"A", Timeframe.m1, 1000, 1, 1, 1, 1, 1⟩,
                  ⟨"B", Timeframe.m1, 900, 1, 1, 1, 1, 1⟩] Timeframe.m1 s = some m)
      ∧ (∀ s ∈ ["A", "B"], ∀ t,
          latestTs [⟨"A", Timeframe.m1, 1000, 1, 1, 1, 1, 1⟩,
                    ⟨"B", Timeframe.m1, 900, 1, 1, 1, 1, 1⟩] Timeframe.m1 s = some t → m ≤ t)
      ∧ (compute_catchup_window [⟨"A", Timeframe.m1, 1000, 1, 1, 1, 1, 1⟩,
            ⟨"B", Timeframe.m1, 900, 1, 1, 1, 1, 1⟩] 2000 Timeframe.m1 ["A", "B"]).1
          = m - buffers Timeframe.m1
      ∧ (∀ s ∈ ["A", "B"], ∀ t,
          latestTs [⟨"A", Timeframe.m1, 1000, 1, 1, 1, 1, 1⟩,
                    ⟨"B", Timeframe.m1, 900, 1, 1, 1, 1, 1⟩] Timeframe.m1 s = some t →
          (compute_catchup_window [⟨"A", Timeframe.m1, 1000, 1, 1, 1, 1, 1⟩,
              ⟨"B", Timeframe.m1, 900, 1, 1, 1, 1, 1⟩] 2000 Timeframe.m1 ["A", "B"]).1 ≤ t) := by
  refine compute_catchup_window_incremental
    [⟨"A", Timeframe.m1, 1000, 1, 1, 1, 1, 1⟩, ⟨"B", Timeframe.m1, 900, 1, 1, 1, 1, 1⟩]
    2000 Timeframe.m1 ["A", "B"] (by simp) (by decide) (by decide) ?_
  intro s hs t ht
  rcases List.mem_cons.mp hs with rfl | hs'
  · have hA : latestTs [⟨"A", Timeframe.m1, 1000, 1, 1, 1, 1, 1⟩,
        ⟨"B", Timeframe.m1, 900, 1, 1, 1, 1, 1⟩] Timeframe.m1 "A" = some 1000 := by decide
    rw [hA] at ht
    have htv : t = 1000 := (Option.some.injEq _ _ ▸ ht).symm
    rw [htv]
    exact ⟨by norm_num, by norm_num [buffers]⟩
  · rcases List.mem_cons.mp hs' with rfl | hs''
    · have hB : latestTs [⟨"A", Timeframe.m1, 1000, 1, 1, 1, 1, 1⟩,
          ⟨"B", Timeframe.m1, 900, 1, 1, 1, 1, 1⟩] Timeframe.m1 "B" = some 900 := by decide
      rw [hB] at ht
      have htv : t = 900 := (Option.some.injEq _ _ ▸ ht).symm
      rw [htv]
      exact ⟨by norm_num, by norm_num [buffers]⟩
    · cases hs''

-- ---------------------------------------------------------------------------
-- Provider Client (fetch_bars_multi in ingest_catchup.py)
-- ---------------------------------------------------------------------------

/-- One element of the flat list payload shape: symbol keys S and Symbol
(either may be missing), the parsed epoch seconds of the ISO timestamp key
t, and the OHLCV keys. ISO-8601 parsing is abstracted: the t field carries
the already converted integer epoch value. -/
structure BarAJson where
  keyS : Option String
  keySymbol : Option String
  t : Int
  o : Int
  h : Int
  l : Int
  c : Int
  v : Int
deriving DecidableEq, Repr

/-- One element of a per-symbol list in the mapping payload shape. -/
structure BarBJson where
  t : Int
  o : Int
  h : Int
  l : Int
  c : Int
  v : Int
deriving DecidableEq, Repr

/-- The bars field of the provider payload, as inspected by the two
isinstance checks: a flat list, a mapping from symbol to an optional list
(a falsy value is treated as the empty list), absent, or some other JSON
value. -/
inductive BarsField
| absent
| listShape (items : List BarAJson)
| dictShape (entries : List (String × Option (List BarBJson)))
| otherShape
deriving Repr

/-- An upstream HTTP response: status code plus the decoded bars field. -/
structure ProviderResponse where
  status : Nat
  bars : BarsField

/-- Typed signals raised by the provider client: HTTP 429, or
raise_for_status on any other 4xx or 5xx status. -/
inductive FetchError
| rateLimited
| httpStatus (code : Nat)
deriving DecidableEq, Repr

/-- Symbol resolution of shape A: bar.get(S) or bar.get(Symbol), where a
missing key and the empty string are both falsy; a row with no truthy
symbol is skipped. -/
def symOfA (b : BarAJson) : Option String :=
  let s0 :=
    match b.keyS with
    | some s => if s == "" then b.keySymbol else some s
    | none => b.keySymbol
  match s0 with
  | some s => if s == "" then none else some s
  | none => none

/-- Normalization of one shape A element into a store row. -/
def rowOfA (tf : Timeframe) (b : BarAJson) : Option Bar :=
  (symOfA b).map (fun sym =>
    { symbol := sym, timeframe := tf, timestamp := b.t, opn := b.o,
      high := b.h, low := b.l, close := b.c, volume := b.v })

/-- Normalization of one shape B element into a store row. -/
def rowOfB (tf : Timeframe) (sym : String) (b : BarBJson) : Bar :=
  { symbol := sym, timeframe := tf, timestamp := b.t, opn := b.o,
    high := b.h, low := b.l, close := b.c, volume := b.v }

/-- `fetch_bars_multi` from ingest_catchup.py over a supplied response.
An empty symbol list short-circuits to zero rows before any request. A 429
status raises the rate-limit signal; any other 4xx or 5xx raises a hard
HTTP error. Otherwise the payload is normalized: a flat list keeps exactly
the elements carrying a truthy symbol, a mapping concatenates each symbol
rows, and anything else — the bars field absent or of another type — yields
zero rows. -/
def fetch_bars_multi (symbols : List String) (tf : Timeframe)
    (resp : ProviderResponse) : Except FetchError (List Bar) :=
  if symbols.isEmpty then Except.ok []
  else if resp.status == 429 then Except.error FetchError.rateLimited
  else if 400 ≤ resp.status ∧ resp.status < 600 then
    Except.error (FetchError.httpStatus resp.status)
  else
    match resp.bars with
    | BarsField.listShape items => Except.ok (items.filterMap (rowOfA tf))
    | BarsField.dictShape entries =>
      Except.ok (entries.bind (fun e => (e.2.getD []).map (rowOfB tf e.1)))
    | BarsField.absent => Except.ok []
    | BarsField.otherShape => Except.ok []

/-- C7. Any successful response (status below 400, hence not 429) whose
bars field is absent or is neither a list nor a mapping is treated as zero
rows for the group, not as an error. -/
theorem fetch_bars_multi_malformed_payload_zero_rows
    (symbols : List String) (tf : Timeframe) (resp : ProviderResponse)
    (hok : resp.status < 400)
    (hmal : resp.bars = BarsField.absent ∨ resp.bars = BarsField.otherShape) :
    fetch_bars_multi symbols tf resp = Except.ok [] := by
  have h429 : (resp.status == 429) = false := by
    rw [beq_eq_false_iff_ne]
    omega
  have hhard : ¬ (400 ≤ resp.status ∧ resp.status < 600) := by omega
  by_cases hsym : symbols.isEmpty
  · unfold fetch_bars_multi
    rw [if_pos hsym]
  · rcases hmal with hb | hb <;>
      · unfold fetch_bars_multi
        rw [if_neg hsym, if_neg (by simp [h429]), if_neg hhard, hb]

/-- C7 witness: a one-symbol request against a 200 response with no bars
field yields zero rows. -/
theorem fetch_bars_multi_malformed_payload_zero_rows_witness :
    fetch_bars_multi ["A"] Timeframe.m1 ⟨200, BarsField.absent⟩ = Except.ok [] :=
  fetch_bars_multi_malformed_payload_zero_rows ["A"] Timeframe.m1
    ⟨200, BarsField.absent⟩ (by norm_num) (Or.inl rfl)

-- ---------------------------------------------------------------------------
-- Chunked Fetch Orchestrator (run_catchup_for_timeframe in ingest_catchup.py)
-- ---------------------------------------------------------------------------

/-- `chunked` from ingest_catchup.py: split a list into consecutive groups
of the given size (a size of 0 is an error in the source and yields no
groups here). -/
def chunked (l : List String) (size : Nat) : List (List String) :=
  if h : size = 0 ∨ l = [] then []
  else l.take size :: chunked (l.drop size) size
termination_by l.length
decreasing_by
  push_neg at h
  have hlen : 0 < l.length := List.length_pos.mpr h.2
  simp only [List.length_drop]
  omega

/-- The outcome of one provider call as observed by the orchestrator loop:
normalized rows, the 429 rate-limit signal, another HTTP error, or any
other exception. -/
inductive FetchOutcome
| success (rows : List Bar)
| rateLimited
| httpError
| otherError

/-- State threaded through the orchestrator loop: the Bar Store, the Run
Ledger, the local inserted-row total, and the trace of symbol groups passed
to the provider client, in call order. -/
structure OrchState where
  db : List Bar
  ledger : List IngestRun
  totalInserted : Nat
  attempts : List (List String)

/-- One loop iteration of `run_catchup_for_timeframe` for one symbol group.
A successful fetch with rows batch-inserts them, adds the count to the
local total, and increments the run ledger row when the count is non-zero.
A 429 sleeps and continues to the next group; any other error is logged and
the loop moves on. In every case exactly one provider call is made for the
group. -/
def orch_step (runId : Nat) (outcome : FetchOutcome) (group : List String)
    (st : OrchState) : OrchState :=
  let st1 := { st with attempts := st.attempts ++ [group] }
  match outcome with
  | FetchOutcome.success rows =>
    if rows.isEmpty then st1
    else
      let r := insert_bars_batch st1.db rows
      let ledger2 :=
        if r.2 = 0 then st1.ledger
        else update_ingest_run st1.ledger runId none (some r.2) false 0
      { st1 with db := r.1, ledger := ledger2,
                 totalInserted := st1.totalInserted + r.2 }
  | FetchOutcome.rateLimited => st1
  | FetchOutcome.httpError => st1
  | FetchOutcome.otherError => st1

/-- The orchestrator loop over the remaining groups, numbering provider
calls with the index fed to the outcome oracle. -/
def orch_run_groups (runId : Nat) (oracle : Nat → FetchOutcome) :
    List (List String) → Nat → OrchState → OrchState
| [], _, st => st
| g :: gs, i, st => orch_run_groups runId oracle gs (i + 1) (orch_step runId (oracle i) g st)

/-- The states of the orchestrator loop: the initial state followed by the
state after each group. -/
def orch_trace (runId : Nat) (oracle : Nat → FetchOutcome) :
    List (List String) → Nat → OrchState → List OrchState
| [], _, st => [st]
| g :: gs, i, st => st :: orch_trace runId oracle gs (i + 1) (orch_step runId (oracle i) g st)

/-- `run_catchup_for_timeframe` from ingest_catchup.py: compute the window,
create a Run Ledger row in status running, process every symbol group
(per-group outcomes supplied by the oracle), then finalize the run to
finished with the end time set, returning the final state and the total of
newly inserted rows. -/
def run_catchup_for_timeframe (db0 : List Bar) (ledger0 : List IngestRun)
    (symbols : List String) (tf : Timeframe) (chunkSize : Nat)
    (oracle : Nat → FetchOutcome) (now : Int) (pid : Nat) : OrchState × Nat :=
  let w := compute_catchup_window db0 now tf symbols
  let c := create_ingest_run ledger0 tf "catchup" w.1 w.2 pid now
  let st0 : OrchState := ⟨db0, c.1, 0, []⟩
  let stF := orch_run_groups c.2 oracle (chunked symbols chunkSize) 0 st0
  ({ stF with ledger := update_ingest_run stF.ledger c.2 (some "finished") none true now },
    stF.totalInserted)

/-- The inserted-row counter of a run as read from a loop state. -/
def runInserted (rid : Nat) (st : OrchState) : Nat :=
  match findRun st.ledger rid with
  | some r => r.insertedRows
  | none => 0

lemma orch_step_attempts (runId : Nat) (o : FetchOutcome) (g : List String)
    (st : OrchState) :
    (orch_step runId o g st).attempts = st.attempts ++ [g] := by
  cases o with
  | success rows =>
    by_cases h : rows.isEmpty <;> simp [orch_step, h]
  | rateLimited => rfl
  | httpError => rfl
  | otherError => rfl

lemma orch_run_groups_attempts (runId : Nat) (oracle : Nat → FetchOutcome) :
    ∀ (gs : List (List String)) (i : Nat) (st : OrchState),
    (orch_run_groups runId oracle gs i st).attempts = st.attempts ++ gs := by
  intro gs
  induction gs with
  | nil => intro i st; simp [orch_run_groups]
  | cons g gs ih =>
    intro i st
    simp [orch_run_groups, ih, orch_step_attempts]

lemma findRun_update_inc (l : List IngestRun) (rid : Nat) (n : Nat) (t : Int)
    (hn : ¬ n = 0) :
    findRun (update_ingest_run l rid none (some n) false t) rid
      = (findRun l rid).map (fun r => { r with insertedRows := r.insertedRows + n }) := by
  simp only [update_ingest_run, if_neg hn]
  rw [findRun, List.find?_map]
  have hcomp : ((fun r : IngestRun => r.id == rid) ∘ (fun r : IngestRun =>
      if r.id == rid then { r with insertedRows := r.insertedRows + n } else r))
      = (fun r : IngestRun => r.id == rid) := by
    funext r
    by_cases h : (r.id == rid) = true <;> simp [Function.comp, h]
  rw [hcomp]
  rw [show (List.find? (fun r : IngestRun => r.id == rid) l) = findRun l rid from rfl]
  cases hf : findRun l rid with
  | none => rfl
  | some r =>
    have hf' : List.find? (fun x : IngestRun => x.id == rid) l = some r := hf
    have hp := List.find?_some hf'
    simp only at hp
    simp [hp]
    intro hcon
    exact absurd (by simpa using hp) hcon

lemma findRun_update_finish (l : List IngestRun) (rid : Nat) (t : Int) :
    findRun (update_ingest_run l rid (some "finished") none true t) rid
      = (findRun l rid).map (fun r => { r with status := "finished", endedAt := some t }) := by
  simp only [update_ingest_run]
  rw [if_pos (by decide)]
  rw [findRun, List.find?_map]
  have hcomp : ((fun r : IngestRun => r.id == rid) ∘ (fun r : IngestRun =>
      if r.id == rid then { r with status := "finished", endedAt := some t } else r))
      = (fun r : IngestRun => r.id == rid) := by
    funext r
    by_cases h : (r.id == rid) = true <;> simp [Function.comp, h]
  rw [hcomp]
  rw [show (List.find? (fun r : IngestRun => r.id == rid) l) = findRun l rid from rfl]
  cases hf : findRun l rid with
  | none => rfl
  | some r =>
    have hf' : List.find? (fun x : IngestRun => x.id == rid) l = some r := hf
    have hp := List.find?_some hf'
    simp only at hp
    simp [hp]
    intro hcon
    exact absurd (by simpa using hp) hcon

lemma mem_id_le (l : List IngestRun) (r : IngestRun) (h : r ∈ l) :
    r.id ≤ (l.map (fun x => x.id)).foldr max 0 := by
  induction l with
  | nil => cases h
  | cons a l ih =>
    rcases List.mem_cons.mp h with rfl | h'
    · exact le_max_left _ _
    · exact le_trans (ih h') (le_max_right _ _)

lemma findRun_create (l : List IngestRun) (tf : Timeframe) (mode : String)
    (ws we : Int) (pid : Nat) (now : Int) :
    findRun (create_ingest_run l tf mode ws we pid now).1 (nextRunId l)
      = some { id := nextRunId l, timeframe := tf, mode := mode, status := "running",
               startedAt := now, endedAt := none, windowStart := ws, windowEnd := we,
               insertedRows := 0, pid := pid } := by
  simp only [create_ingest_run, findRun]
  rw [List.find?_append]
  have hnone : l.find? (fun r : IngestRun => r.id == nextRunId l) = none := by
    rw [List.find?_eq_none]
    intro r hr
    simp only [beq_iff_eq]
    have := mem_id_le l r hr
    unfold nextRunId
    omega
  rw [hnone]
  simp

lemma orch_step_run_preserved (runId : Nat) (o : FetchOutcome) (g : List String)
    (st : OrchState) (r : IngestRun) (hr : findRun st.ledger runId = some r) :
    ∃ k, findRun (orch_step runId o g st).ledger runId
        = some { r with insertedRows := r.insertedRows + k } := by
  cases o with
  | success rows =>
    by_cases he : rows.isEmpty
    · exact ⟨0, by simp [orch_step, he, hr]⟩
    · by_cases hz : (insert_bars_batch st.db rows).2 = 0
      · exact ⟨0, by simp [orch_step, he, hz, hr]⟩
      · refine ⟨(insert_bars_batch st.db rows).2, ?_⟩
        simp only [orch_step, he, Bool.false_eq_true, if_false, if_neg hz]
        rw [findRun_update_inc _ _ _ _ hz, hr]
        rfl
  | rateLimited => exact ⟨0, by simp [orch_step, hr]⟩
  | httpError => exact ⟨0, by simp [orch_step, hr]⟩
  | otherError => exact ⟨0, by simp [orch_step, hr]⟩

lemma orch_run_groups_run_preserved (runId : Nat) (oracle : Nat → FetchOutcome) :
    ∀ (gs : List (List String)) (i : Nat) (st : OrchState) (r : IngestRun),
    findRun st.ledger runId = some r →
    ∃ k, findRun (orch_run_groups runId oracle gs i st).ledger runId
        = some { r with insertedRows := r.insertedRows + k } := by
  intro gs
  induction gs with
  | nil =>
    intro i st r hr
    exact ⟨0, by simp [orch_run_groups, hr]⟩
  | cons g gs ih =>
    intro i st r hr
    obtain ⟨k1, h1⟩ := orch_step_run_preserved runId (oracle i) g st r hr
    obtain ⟨k2, h2⟩ := ih (i + 1) (orch_step runId (oracle i) g st) _ h1
    refine ⟨k1 + k2, ?_⟩
    rw [orch_run_groups, h2]
    simp [Nat.add_assoc]

lemma orch_trace_head (runId : Nat) (oracle : Nat → FetchOutcome)
    (gs : List (List String)) (i : Nat) (st : OrchState) :
    (orch_trace runId oracle gs i st).head? = some st := by
  cases gs <;> rfl

lemma orch_trace_run_preserved (runId : Nat) (oracle : Nat → FetchOutcome) :
    ∀ (gs : List (List String)) (i : Nat) (st : OrchState) (r : IngestRun),
    findRun st.ledger runId = some r →
    ∀ st' ∈ orch_trace runId oracle gs i st,
    ∃ k, findRun st'.ledger runId
        = some { r with insertedRows := r.insertedRows + k } := by
  intro gs
  induction gs with
  | nil =>
    intro i st r hr st' hst'
    rw [orch_trace] at hst'
    rcases List.mem_singleton.mp hst' with rfl
    exact ⟨0, by simp [hr]⟩
  | cons g gs ih =>
    intro i st r hr st' hst'
    rw [orch_trace] at hst'
    rcases List.mem_cons.mp hst' with rfl | hst''
    · exact ⟨0, by simp [hr]⟩
    · obtain ⟨k1, h1⟩ := orch_step_run_preserved runId (oracle i) g st r hr
      obtain ⟨k2, h2⟩ := ih (i + 1) (orch_step runId (oracle i) g st) _ h1 st' hst''
      refine ⟨k1 + k2, ?_⟩
      rw [h2]
      simp [Nat.add_assoc]

lemma orch_step_runInserted_le (runId : Nat) (o : FetchOutcome) (g : List String)
    (st : OrchState) :
    runInserted runId st ≤ runInserted runId (orch_step runId o g st) := by
  cases hf : findRun st.ledger runId with
  | none =>
    rw [runInserted, hf]
    exact Nat.zero_le _
  | some r =>
    obtain ⟨k, hk⟩ := orch_step_run_preserved runId o g st r hf
    rw [runInserted, hf, runInserted, hk]
    exact Nat.le_add_right _ _

lemma orch_trace_inserted_chain (runId : Nat) (oracle : Nat → FetchOutcome) :
    ∀ (gs : List (List String)) (i : Nat) (st : OrchState),
    List.Chain' (fun a b => runInserted runId a ≤ runInserted runId b)
      (orch_trace runId oracle gs i st) := by
  intro gs
  induction gs with
  | nil => intro i st; rw [orch_trace]; exact List.chain'_singleton st
  | cons g gs ih =>
    intro i st
    rw [orch_trace]
    refine List.chain'_cons'.mpr ⟨?_, ih (i + 1) _⟩
    intro b hb
    rw [orch_trace_head] at hb
    rcases Option.mem_some_iff.mp hb with rfl
    exact orch_step_runInserted_le runId (oracle i) g st

/-- C1 counterexample oracle: the very first provider call is rate limited,
every later call succeeds with no rows. -/
def c1Oracle : Nat → FetchOutcome :=
  fun i => if i = 0 then FetchOutcome.rateLimited else FetchOutcome.success []

lemma chunked_two_one : chunked ["A", "B"] 1 = [["A"], ["B"]] := by
  simp [chunked]

/-- C1 counterexample: with two one-symbol groups and a rate-limited first
call, the first provider call is on group A and the second call is on group
B — the orchestrator advances to the next group after the 429 cooldown
instead of retrying the identical group. -/
theorem catchup_rate_limit_no_retry_counterexample :
    c1Oracle 0 = FetchOutcome.rateLimited
      ∧ (run_catchup_for_timeframe [] [] ["A", "B"] Timeframe.m1 1
          c1Oracle 1000 42).1.attempts.get? 0 = some ["A"]
      ∧ (run_catchup_for_timeframe [] [] ["A", "B"] Timeframe.m1 1
          c1Oracle 1000 42).1.attempts.get? 1 = some ["B"]
      ∧ (some ["B"] : Option (List String)) ≠ some ["A"] := by
  have hatt : (run_catchup_for_timeframe [] [] ["A", "B"] Timeframe.m1 1
      c1Oracle 1000 42).1.attempts = [["A"], ["B"]] := by
    show (orch_run_groups _ c1Oracle (chunked ["A", "B"] 1) 0 _).attempts = _
    rw [orch_run_groups_attempts, chunked_two_one]
    rfl
  refine ⟨rfl, ?_, ?_, by decide⟩
  · rw [hatt]; rfl
  · rw [hatt]; rfl

/-- C1 (amended). The orchestrator makes exactly one provider call per
symbol group, in group order: the attempt trace of a run is exactly the
chunked symbol list, so a rate-limited group is not retried within the run
(after the cooldown the loop continues with the next group). Moreover a
rate-limited outcome leaves the store, the ledger and the inserted-row
total unchanged for that group, so inserted rows for the group can only
appear through a later successful run. -/
theorem catchup_rate_limited_group_not_retried
    (db0 : List Bar) (ledger0 : List IngestRun) (symbols : List String)
    (tf : Timeframe) (chunkSize : Nat) (oracle : Nat → FetchOutcome)
    (now : Int) (pid : Nat) :
    (run_catchup_for_timeframe db0 ledger0 symbols tf chunkSize oracle now pid).1.attempts
        = chunked symbols chunkSize
      ∧ (∀ i : Nat, oracle i = FetchOutcome.rateLimited →
          ∀ (runId : Nat) (g : List String) (st : OrchState),
            (orch_step runId (oracle i) g st).db = st.db
              ∧ (orch_step runId (oracle i) g st).ledger = st.ledger
              ∧ (orch_step runId (oracle i) g st).totalInserted = st.totalInserted) := by
  constructor
  · show (orch_run_groups _ oracle (chunked symbols chunkSize) 0 _).attempts = _
    rw [orch_run_groups_attempts]
    rfl
  · intro i hi runId g st
    rw [hi]
    exact ⟨rfl, rfl, rfl⟩

/-- C1 (amended) witness: the concrete two-group run attempts exactly the
chunked groups, and the rate-limited step at call 0 changes nothing. -/
theorem catchup_rate_limited_group_not_retried_witness :
    (run_catchup_for_timeframe [] [] ["A", "B"] Timeframe.m1 1
        c1Oracle 1000 42).1.attempts = chunked ["A", "B"] 1
      ∧ (orch_step 7 (c1Oracle 0) ["A"] ⟨[], [], 0, []⟩).db = []
      ∧ (orch_step 7 (c1Oracle 0) ["A"] ⟨[], [], 0, []⟩).ledger = []
      ∧ (orch_step 7 (c1Oracle 0) ["A"] ⟨[], [], 0, []⟩).totalInserted = 0 := by
  obtain ⟨h1, h2⟩ := catchup_rate_limited_group_not_retried [] [] ["A", "B"]
    Timeframe.m1 1 c1Oracle 1000 42
  have h3 := h2 0 rfl 7 ["A"] ⟨[], [], 0, []⟩
  exact ⟨h1, h3.1, h3.2.1, h3.2.2⟩

/-- C6. Lifecycle of the Run Ledger row of one orchestrator run: the row is
created in status running with zero inserted rows and no end time; in every
state of the loop trace the row is still running with no end time; the
inserted-row counter never decreases between consecutive loop states; and
the final ledger of the run — whatever the per-group outcomes were — holds
the row finalized to status finished with the end time set on that single
terminal transition. -/
theorem run_catchup_ledger_lifecycle
    (db0 : List Bar) (ledger0 : List IngestRun) (symbols : List String)
    (tf : Timeframe) (chunkSize : Nat) (oracle : Nat → FetchOutcome)
    (now : Int) (pid : Nat) :
    (∃ r, findRun (create_ingest_run ledger0 tf "catchup"
            (compute_catchup_window db0 now tf symbols).1
            (compute_catchup_window db0 now tf symbols).2 pid now).1
          (nextRunId ledger0) = some r
        ∧ r.status = "running" ∧ r.insertedRows = 0 ∧ r.endedAt = none)
      ∧ (∀ st' ∈ orch_trace (nextRunId ledger0) oracle (chunked symbols chunkSize) 0
            ⟨db0, (create_ingest_run ledger0 tf "catchup"
              (compute_catchup_window db0 now tf symbols).1
              (compute_catchup_window db0 now tf symbols).2 pid now).1, 0, []⟩,
          ∃ r, findRun st'.ledger (nextRunId ledger0) = some r
            ∧ r.status = "running" ∧ r.endedAt = none)
      ∧ List.Chain' (fun a b =>
            runInserted (nextRunId ledger0) a ≤ runInserted (nextRunId ledger0) b)
          (orch_trace (nextRunId ledger0) oracle (chunked symbols chunkSize) 0
            ⟨db0, (create_ingest_run ledger0 tf "catchup"
              (compute_catchup_window db0 now tf symbols).1
              (compute_catchup_window db0 now tf symbols).2 pid now).1, 0, []⟩)
      ∧ (∃ r, findRun (run_catchup_for_timeframe db0 ledger0 symbols tf chunkSize
              oracle now pid).1.ledger (nextRunId ledger0) = some r
          ∧ r.status = "finished" ∧ r.endedAt = some now) := by
  have hcr := findRun_create ledger0 tf "catchup"
    (compute_catchup_window db0 now tf symbols).1
    (compute_catchup_window db0 now tf symbols).2 pid now
  refine ⟨⟨_, hcr, rfl, rfl, rfl⟩, ?_, ?_, ?_⟩
  · intro st' hst'
    obtain ⟨k, hk⟩ := orch_trace_run_preserved (nextRunId ledger0) oracle
      (chunked symbols chunkSize) 0
      ⟨db0, (create_ingest_run ledger0 tf "catchup"
        (compute_catchup_window db0 now tf symbols).1
        (compute_catchup_window db0 now tf symbols).2 pid now).1, 0, []⟩
      _ hcr st' hst'
    exact ⟨_, hk, rfl, rfl⟩
  · exact orch_trace_inserted_chain (nextRunId ledger0) oracle
      (chunked symbols chunkSize) 0 _
  · obtain ⟨k, hk⟩ := orch_run_groups_run_preserved (nextRunId ledger0) oracle
      (chunked symbols chunkSize) 0
      ⟨db0, (create_ingest_run ledger0 tf "catchup"
        (compute_catchup_window db0 now tf symbols).1
        (compute_catchup_window db0 now tf symbols).2 pid now).1, 0, []⟩
      _ hcr
    have hfin := findRun_update_finish
      (orch_run_groups (nextRunId ledger0) oracle (chunked symbols chunkSize) 0
        ⟨db0, (create_ingest_run ledger0 tf "catchup"
          (compute_catchup_window db0 now tf symbols).1
          (compute_catchup_window db0 now tf symbols).2 pid now).1, 0, []⟩).ledger
      (nextRunId ledger0) now
    rw [hk] at hfin
    exact ⟨_, hfin, rfl, rfl⟩

/-- C6 witness: a concrete one-group run over the empty store and ledger
ends with its ledger row in status finished and the end time set. -/
theorem run_catchup_ledger_lifecycle_witness :
    (findRun (run_catchup_for_timeframe [] [] ["A"] Timeframe.m1 1
        (fun _ => FetchOutcome.success []) 1000 5).1.ledger (nextRunId [])).map
        (fun r => (r.status, r.endedAt)) = some ("finished", some 1000) := by
  obtain ⟨r, hr, hs, he⟩ := (run_catchup_ledger_lifecycle [] [] ["A"] Timeframe.m1 1
    (fun _ => FetchOutcome.success []) 1000 5).2.2.2
  rw [hr]
  simp [hs, he]

-- ---------------------------------------------------------------------------
-- Realtime Scheduler cycle and On-demand Launcher (app.py)
-- ---------------------------------------------------------------------------

/-- One cycle of `_realtime_loop` in app.py: a 1Min catch-up is spawned
exactly when the Run Ledger shows no running 1Min catch-up run. -/
def realtime_cycle_spawns (ledger : List IngestRun) : Bool :=
  ! has_running_ingest ledger (some Timeframe.m1) (some "catchup")

/-- Lowercased first-character test, the effect of the Python expression
lowercasing a request string and asking whether it starts with a given
one-character literal. -/
def lowerStartsWith (s : String) (c : Char) : Bool :=
  match s.data.map Char.toLower with
  | [] => false
  | d :: _ => d == c

/-- The timeframe normalization inside `start_ingest` in app.py: a request
string starting with 1 maps to 1Min, with 5 to 5Min, anything else to
30Min (after lowercasing). -/
def tf_of_request (s : String) : Timeframe :=
  if lowerStartsWith s '1' then Timeframe.m1
  else if lowerStartsWith s '5' then Timeframe.m5
  else Timeframe.m30

/-- The duplicate-run check computed by `start_ingest` for catch-up mode:
whether any requested timeframe already has a running catch-up run. -/
def catchup_duplicate_check (ledger : List IngestRun) (tfs : List String) : Bool :=
  (tfs.map tf_of_request).any
    (fun t => has_running_ingest ledger (some t) (some "catchup"))

/-- Whether `start_ingest` in catch-up mode spawns the work: the duplicate
check is computed but its result is discarded (the body of the guard is
pass), so the spawn happens in both branches. -/
def start_ingest_spawns_catchup (ledger : List IngestRun) (tfs : List String) : Bool :=
  if catchup_duplicate_check ledger tfs then true else true

lemma has_running_ingest_m1_catchup_iff (ledger : List IngestRun) :
    has_running_ingest ledger (some Timeframe.m1) (some "catchup") = true
      ↔ ∃ r ∈ ledger, r.timeframe = Timeframe.m1 ∧ r.mode = "catchup"
          ∧ r.status = "running" := by
  simp only [has_running_ingest, gt_iff_lt, decide_eq_true_eq,
    List.length_pos_iff_exists_mem]
  constructor
  · rintro ⟨r, hr⟩
    rcases List.mem_filter.mp hr with ⟨hmem, hp⟩
    simp only [Bool.and_eq_true, beq_iff_eq] at hp
    exact ⟨r, hmem, hp.1.2, hp.2, hp.1.1⟩
  · rintro ⟨r, hmem, htf, hmode, hst⟩
    refine ⟨r, List.mem_filter.mpr ⟨hmem, ?_⟩⟩
    simp [htf, hmode, hst]

/-- C5. In every cycle of the realtime loop: when the Run Ledger holds a
running 1Min catch-up run the cycle does not spawn a new one, and when it
holds none the cycle does spawn one. -/
theorem realtime_cycle_no_duplicate_fine_run (ledger : List IngestRun) :
    ((∃ r ∈ ledger, r.timeframe = Timeframe.m1 ∧ r.mode = "catchup"
        ∧ r.status = "running") → realtime_cycle_spawns ledger = false)
      ∧ ((¬ ∃ r ∈ ledger, r.timeframe = Timeframe.m1 ∧ r.mode = "catchup"
        ∧ r.status = "running") → realtime_cycle_spawns ledger = true) := by
  constructor
  · intro h
    have hr := (has_running_ingest_m1_catchup_iff ledger).mpr h
    simp [realtime_cycle_spawns, hr]
  · intro h
    have hr : has_running_ingest ledger (some Timeframe.m1) (some "catchup") = false := by
      cases hc : has_running_ingest ledger (some Timeframe.m1) (some "catchup") with
      | false => rfl
      | true => exact absurd ((has_running_ingest_m1_catchup_iff ledger).mp hc) h
    simp [realtime_cycle_spawns, hr]

/-- A concrete Run Ledger row: a running 1Min catch-up run, used as input
of concrete evaluations. -/
def runningFineRun : IngestRun :=
  ⟨1, Timeframe.m1, "catchup", "running", 0, none, 0, 0, 0, 7⟩

/-- C5 witness: a ledger holding one running 1Min catch-up run suppresses
the spawn; the empty ledger allows it. -/
theorem realtime_cycle_no_duplicate_fine_run_witness :
    realtime_cycle_spawns [runningFineRun] = false
      ∧ realtime_cycle_spawns [] = true :=
  ⟨(realtime_cycle_no_duplicate_fine_run _).1
      ⟨runningFineRun, List.mem_singleton.mpr rfl, rfl, rfl, rfl⟩,
    (realtime_cycle_no_duplicate_fine_run []).2 (by rintro ⟨r, hr, -⟩; cases hr)⟩

/-- C8. The on-demand catch-up launcher always spawns, whatever the
duplicate check against the Run Ledger says — even when a running run with
the same timeframe and mode exists — while the realtime loop guard is
enforced: a running 1Min catch-up suppresses the realtime spawn. -/
theorem start_ingest_always_spawns_catchup (ledger : List IngestRun)
    (tfs : List String) :
    start_ingest_spawns_catchup ledger tfs = true
      ∧ (catchup_duplicate_check ledger tfs = true →
          start_ingest_spawns_catchup ledger tfs = true)
      ∧ (has_running_ingest ledger (some Timeframe.m1) (some "catchup") = true →
          realtime_cycle_spawns ledger = false) := by
  have hsp : start_ingest_spawns_catchup ledger tfs = true := by
    cases hc : catchup_duplicate_check ledger tfs <;>
      simp [start_ingest_spawns_catchup, hc]
  exact ⟨hsp, fun _ => hsp, fun h => by simp [realtime_cycle_spawns, h]⟩

/-- C8 witness: with a running 1Min catch-up run in the ledger and request
timeframes [1m], the duplicate check is true, the on-demand launch still
spawns, and the realtime cycle does not. -/
theorem start_ingest_always_spawns_catchup_witness :
    catchup_duplicate_check [runningFineRun] ["1m"] = true
      ∧ start_ingest_spawns_catchup [runningFineRun] ["1m"] = true
      ∧ realtime_cycle_spawns [runningFineRun] = false :=
  ⟨by decide,
    (start_ingest_always_spawns_catchup [runningFineRun] ["1m"]).1,
    (start_ingest_always_spawns_catchup [runningFineRun] ["1m"]).2.2 (by decide)⟩

/-- C10. If the driver raises partway through a batch (after any number `k`
of statements), `insert_bars_batch` rolls the transaction back and returns 0:
the committed store is exactly the store before the call, so no row of the
batch survives, and the caller still receives an integer count. The success
path coincides with the plain batch insert. -/
theorem insert_batch_error_rolls_back_atomically
    (db : List Bar) (bars : List Bar) (k : Nat) :
    (insert_bars_batch_tx db bars (some k)).1 = db
      ∧ (insert_bars_batch_tx db bars (some k)).2 = 0
      ∧ insert_bars_batch_tx db bars none = insert_bars_batch db bars := by
  refine ⟨rfl, rfl, ?_⟩
  simp [insert_bars_batch_tx, insert_bars_batch, connOpen, connCommit]
